import Mathlib

/-!
Verification of the SEO audit tool (src/SEO.py) against its specification.

The source is a single Python file.  We give a shallow embedding of the
functions the claims are about:

* Python strings are modelled as `String`/`List Char`; the library string
  operations the source calls (`str.count`, `str.strip`, `str.split`,
  `str.replace`, `str.lower`) are modelled by executable Lean functions
  (`pyCount`, `pyStrip`, `pySplit`, `pyReplace`, `pyLower`) faithful to
  their documented Python semantics (non-overlapping left-to-right
  scanning for `count`/`replace`, whitespace classes for `strip`/`split`).
  `str.lower` is modelled with `Char.toLower` (ASCII case mapping).
* A parsed BeautifulSoup document is modelled by the tree type `Node`
  (text nodes and element nodes with attributes and children); the
  BeautifulSoup queries used by the source (`find`, `find_all`,
  `get_text`, attribute access, `decompose`) are modelled by structural
  functions over `Node`.  The HTML parser itself is external: an audit
  run is modelled by the pair of the raw html string and its parsed tree.
* JSON values (`json.loads` results) are modelled by the inductive `Json`;
  `json.loads` itself is an external library call and is passed as a
  function parameter `String → Option Json` (`none` = parse failure,
  which the source catches).
* Network effects (`requests.get`) are modelled by passing the outcome of
  the call as an `Except Unit Json` parameter, plus an explicit boolean
  recording whether the call was attempted at all.
-/

/-! ## Python string primitives -/

/-- Python whitespace class used by `str.strip()` and `str.split()`:
space, tab, newline, carriage return, vertical tab, form feed. -/
def isPySpace (c : Char) : Bool :=
  c = ' ' ∨ c = '\t' ∨ c = '\n' ∨ c = '\r' ∨ c = '\x0b' ∨ c = '\x0c'

/-- Python `str.strip()` on a character list: drop whitespace from both ends. -/
def pyStrip (l : List Char) : List Char :=
  ((l.dropWhile isPySpace).reverse.dropWhile isPySpace).reverse

/-- Python `str.strip()` on a `String`. -/
def pyStripS (s : String) : String := ⟨pyStrip s.data⟩

/-- Python `str.lower()` (ASCII case mapping via `Char.toLower`). -/
def pyLower (s : String) : String := ⟨s.data.map Char.toLower⟩

/-- Helper for `pySplit`: cut a character list into maximal runs separated
by whitespace characters; runs may be empty at whitespace boundaries. -/
def splitGroups : List Char → List (List Char)
  | [] => []
  | c :: rest =>
      if isPySpace c then [] :: splitGroups rest
      else
        match splitGroups rest with
        | [] => [[c]]
        | g :: gs => (c :: g) :: gs

/-- Python `str.split()` with no argument: split on whitespace runs,
discarding empty results. -/
def pySplit (l : List Char) : List (List Char) :=
  (splitGroups l).filter (fun g => !g.isEmpty)

/-- Fuel-driven worker for `pyCount`.  At each position, if the pattern
matches there, count one occurrence and resume after it (non-overlapping);
otherwise advance one character. -/
def pyCountAux (p : List Char) : Nat → List Char → Nat
  | _, [] => 0
  | 0, _ :: _ => 0
  | fuel + 1, c :: rest =>
      if p.isPrefixOf (c :: rest) then
        1 + pyCountAux p fuel (List.drop (p.length - 1) rest)
      else pyCountAux p fuel rest

/-- Python `str.count(sub)`: number of non-overlapping occurrences of `p`
in `s`, scanning left to right.  An empty pattern occurs `len(s) + 1`
times, as in Python. -/
def pyCount (s p : List Char) : Nat :=
  if p = [] then s.length + 1 else pyCountAux p s.length s

/-- Python `str.count` on `String`s. -/
def pyCountS (s p : String) : Nat := pyCount s.data p.data

/-- Fuel-driven worker for `pyReplace`: replace each non-overlapping
occurrence of `old`, scanning left to right. -/
def pyReplaceAux (old new : List Char) : Nat → List Char → List Char
  | _, [] => []
  | 0, s => s
  | fuel + 1, c :: rest =>
      if old.isPrefixOf (c :: rest) then
        new ++ pyReplaceAux old new fuel (List.drop (old.length - 1) rest)
      else c :: pyReplaceAux old new fuel rest

/-- Python `str.replace(old, new)`: replace every non-overlapping
occurrence of `old` by `new`, scanning left to right.  An empty `old`
inserts `new` at every boundary, as in Python. -/
def pyReplace (s old new : List Char) : List Char :=
  if old = [] then new ++ s.flatMap (fun c => c :: new)
  else pyReplaceAux old new s.length s

/-- Python `' '.join(...)` on a list of strings. -/
def join_space : List String → String
  | [] => ""
  | [s] => s
  | s :: rest => s ++ " " ++ join_space rest

/-! ## The parsed-document model (BeautifulSoup) -/

/-- A node of a parsed HTML document: either a text node or an element
with a tag name, attributes and children.  A whole parsed document is a
`Node` whose root element (BeautifulSoup's `[document]`) carries the
top-level elements as children. -/
inductive Node where
  | text : String → Node
  | elem (name : String) (attrs : List (String × String)) (children : List Node)

/-- Attribute lookup on a node (`tag.get(key)`): `none` on text nodes and
when the attribute is absent. -/
def node_attr : Node → String → Option String
  | .text _, _ => none
  | .elem _ attrs _, k => (attrs.find? (fun p => p.1 = k)).map (fun p => p.2)

/-- Attribute lookup with default (`tag.get(key, d)`). -/
def node_attrD (n : Node) (k d : String) : String :=
  (node_attr n k).getD d

/-- Does the node carry the attribute (BeautifulSoup `attrs={key: True}`)? -/
def has_attr (k : String) (n : Node) : Bool :=
  (node_attr n k).isSome

/-- Is the node an element with the given tag name? -/
def tag_is (t : String) : Node → Bool
  | .text _ => false
  | .elem name _ _ => name = t

/-- Is the node an element whose tag name is one of the given names
(BeautifulSoup `find_all(['h1', ..])`)? -/
def tag_in (ts : List String) : Node → Bool
  | .text _ => false
  | .elem name _ _ => ts.contains name

mutual

/-- BeautifulSoup `get_text()`: concatenation of all text nodes of the
subtree, in document order. -/
def get_text : Node → String
  | .text s => s
  | .elem _ _ cs => get_text_list cs

/-- `get_text` over a list of sibling nodes. -/
def get_text_list : List Node → String
  | [] => ""
  | c :: cs => get_text c ++ get_text_list cs

end

mutual

/-- BeautifulSoup `find_all(pred)`: all element nodes of the subtree
satisfying the predicate, in document (preorder) order.  Only elements
can match: text nodes never satisfy the predicates used here. -/
def findAllN (p : Node → Bool) : Node → List Node
  | .text _ => []
  | .elem name attrs cs =>
      (if p (.elem name attrs cs) then [Node.elem name attrs cs] else []) ++ findAllL p cs

/-- `findAllN` over a list of sibling nodes. -/
def findAllL (p : Node → Bool) : List Node → List Node
  | [] => []
  | c :: cs => findAllN p c ++ findAllL p cs

end

/-- BeautifulSoup `find(pred)`: the first matching element in document
order, if any. -/
def findFirstN (p : Node → Bool) (n : Node) : Option Node :=
  (findAllN p n).head?

/-- Is the node a `<script>` or `<style>` element?  (The elements the
keyword-frequency counter decomposes before counting.) -/
def isScriptOrStyle : Node → Bool
  | .text _ => false
  | .elem name _ _ => name = "script" ∨ name = "style"

mutual

/-- Effect of `for s in soup(["script", "style"]): s.decompose()` on a
node: every `<script>`/`<style>` subtree is removed. -/
def removeSS : Node → Node
  | .text s => .text s
  | .elem name attrs cs => .elem name attrs (removeSSL cs)

/-- `removeSS` over a list of sibling nodes. -/
def removeSSL : List Node → List Node
  | [] => []
  | c :: rest =>
      if isScriptOrStyle c then removeSSL rest
      else removeSS c :: removeSSL rest

end

mutual

/-- Number of elements of the subtree carrying the given tag name
(an independent count used to state theorems about `find_all`). -/
def countTag (t : String) : Node → Nat
  | .text _ => 0
  | .elem name _ cs => (if name = t then 1 else 0) + countTagL t cs

/-- `countTag` over a list of sibling nodes. -/
def countTagL (t : String) : List Node → Nat
  | [] => 0
  | c :: cs => countTag t c + countTagL t cs

end

/-! ## Extractors (src/SEO.py lines 116-188) -/

/-- Result record of `calculate_keyword_frequency` (src/SEO.py:155-160). -/
structure KeywordFrequency where
  total : Nat
  title : Nat
  headings : Nat
  body : Nat
deriving DecidableEq

/-- The element predicate of `soup.find('meta', attrs={'name': 'description'})`. -/
def is_meta_description (n : Node) : Bool :=
  tag_is "meta" n && (node_attr n "name" = some "description" : Bool)

/-- `extract_meta_description` (src/SEO.py:121-126): the `content`
attribute of the first `<meta name="description">` element, stripped,
when the element exists and the attribute is present and truthy
(non-empty); otherwise the sentinel string. -/
def extract_meta_description (soup : Node) : String :=
  match findFirstN is_meta_description soup with
  | some meta_desc =>
      match node_attr meta_desc "content" with
      | some c => if c ≠ "" then pyStripS c else "No meta description found"
      | none => "No meta description found"
  | none => "No meta description found"

/-- `calculate_keyword_frequency` (src/SEO.py:128-160).  `html_content`
is the raw fetched body and `soup` its parse (`BeautifulSoup(html_content,
'html.parser')`); the function returns the all-zero record when either
the raw string or the keyword is empty (Python truthiness test), and
otherwise counts the lower-cased keyword in the lower-cased text of a
copy of the document with script/style subtrees decomposed.  Python's
`max(0, total - title - headings)` over ints equals truncated `Nat`
subtraction. -/
def calculate_keyword_frequency (html_content : String) (soup : Node) (keyword : String) : KeywordFrequency :=
  if html_content = "" ∨ keyword = "" then ⟨0, 0, 0, 0⟩
  else
    let soup2 := removeSS soup
    let keyword_lower := pyLower keyword
    let all_text := pyLower (get_text soup2)
    let total_count := pyCountS all_text keyword_lower
    let title_count :=
      match findFirstN (tag_is "title") soup2 with
      | some t => pyCountS (pyLower (get_text t)) keyword_lower
      | none => 0
    let headings_text :=
      join_space ((findAllN (tag_in ["h1", "h2", "h3", "h4", "h5", "h6"]) soup2).map
        (fun h => pyLower (get_text h)))
    let headings_count := pyCountS headings_text keyword_lower
    ⟨total_count, title_count, headings_count, total_count - title_count - headings_count⟩

/-- Result record of `analyze_h1_tags` (src/SEO.py:167-171). -/
structure HeadingAnalysis where
  count : Nat
  texts : List String
  status : String
deriving DecidableEq

/-- The `Warning` status string of `analyze_h1_tags` (src/SEO.py:170). -/
def h1WarningStatus : String :=
  "Warning | It is generally recommended to only use one H1 Tag on a page."

/-- `analyze_h1_tags` (src/SEO.py:162-171): collect all `<h1>` elements,
record their stripped texts, and classify `Good`/`Warning`/`Missing` by
the count. -/
def analyze_h1_tags (soup : Node) : HeadingAnalysis :=
  let h1_tags := findAllN (tag_is "h1") soup
  { count := h1_tags.length
    texts := h1_tags.map (fun h1 => pyStripS (get_text h1))
    status :=
      if h1_tags.length = 1 then "Good"
      else if 1 < h1_tags.length then h1WarningStatus
      else "Missing" }

/-- Result record of `analyze_images` (src/SEO.py:184-188). -/
structure ImageAnalysis where
  total_images : Nat
  missing_alt : Nat
  with_alt : Nat
deriving DecidableEq

/-- An image's stripped alt text is empty (missing attribute defaults to
the empty string): the condition under which `analyze_images` counts it
as missing alt text (src/SEO.py:180-182). -/
def img_missing_alt (img : Node) : Bool :=
  pyStripS (node_attrD img "alt" "") = ""

/-- `analyze_images` (src/SEO.py:173-188).  The unused `base_url`
parameter is kept from the source signature.  `with_alt` is computed by
subtraction as in the source. -/
def analyze_images (soup : Node) (base_url : String) : ImageAnalysis :=
  let images := findAllN (tag_is "img") soup
  let total_images := images.length
  let missing_alt := (images.filter img_missing_alt).length
  { total_images := total_images
    missing_alt := missing_alt
    with_alt := total_images - missing_alt }

/-! ## JSON values and the schema detector (src/SEO.py:190-224) -/

/-- JSON values, the possible results of `json.loads`. -/
inductive Json where
  | null
  | bool (b : Bool)
  | num (q : ℚ)
  | str (s : String)
  | arr (xs : List Json)
  | obj (fields : List (String × Json))

mutual

/-- Python `==` on JSON values, as used by `set()` deduplication.
Python's booleans are the integers 0 and 1, so `True == 1` and
`False == 0` hold across types; all other cross-type comparisons are
unequal, and same-type comparisons are structural. -/
def jsonBeq : Json → Json → Bool
  | .null, .null => true
  | .bool a, .bool b => a = b
  | .num a, .num b => a = b
  | .str a, .str b => a = b
  | .bool a, .num q => (if a then (1 : ℚ) else 0) = q
  | .num q, .bool a => q = (if a then (1 : ℚ) else 0)
  | .arr xs, .arr ys => jsonListBeq xs ys
  | .obj fs, .obj gs => jsonFieldsBeq fs gs
  | _, _ => false

/-- `jsonBeq` on lists. -/
def jsonListBeq : List Json → List Json → Bool
  | [], [] => true
  | x :: xs, y :: ys => jsonBeq x y && jsonListBeq xs ys
  | _, _ => false

/-- `jsonBeq` on field lists. -/
def jsonFieldsBeq : List (String × Json) → List (String × Json) → Bool
  | [], [] => true
  | (k, v) :: fs, (l, w) :: gs => (k = l : Bool) && jsonBeq v w && jsonFieldsBeq fs gs
  | _, _ => false

end

instance : BEq Json := ⟨jsonBeq⟩

/-- Python `d[key]` / `key in d` on a JSON object's field list. -/
def json_field : List (String × Json) → String → Option Json
  | [], _ => none
  | (k, v) :: fs, key => if k = key then some v else json_field fs key

/-- BeautifulSoup `tag.string` for a script element: its contents when it
has exactly one text child, else `None` (in the source, `json.loads(None)`
then raises `TypeError`, which is caught). -/
def script_string : Node → Option String
  | .elem _ _ [Node.text s] => some s
  | _ => none

/-- The `@type` values one parsed JSON-LD payload contributes
(src/SEO.py:208-214): an object contributes its `@type` field if present;
an array contributes the `@type` field of each object element; anything
else contributes nothing. -/
def ld_types_of : Json → List Json
  | .obj fields =>
      match json_field fields "@type" with
      | some v => [v]
      | none => []
  | .arr items =>
      items.flatMap (fun item =>
        match item with
        | .obj fields =>
            match json_field fields "@type" with
            | some v => [v]
            | none => []
        | _ => [])
  | _ => []

/-- Result record of `check_schema_markup` (src/SEO.py:218-224). -/
structure SchemaAnalysis where
  has_schema : Bool
  json_ld_count : Nat
  microdata_count : Nat
  rdfa_count : Nat
  schema_types : List Json

/-- The JSON-LD script predicate: `<script type="application/ld+json">`. -/
def is_json_ld_script (n : Node) : Bool :=
  tag_is "script" n && (node_attr n "type" = some "application/ld+json" : Bool)

/-- Is a JSON value hashable in Python, i.e. allowed as a `set` element?
The scalars (`None`, booleans, numbers, strings) are; lists and dicts are
not, and `set()` raises `TypeError` on them. -/
def jsonHashable : Json → Bool
  | .arr _ => false
  | .obj _ => false
  | _ => true

/-- Python `list(set(xs))` on collected JSON values: when every element is
hashable it returns the deduplicated elements (set order modelled as
first occurrence; Python's `==` identifies `True`/`False` with `1`/`0`,
see `jsonBeq`), and when any element is an unhashable list or dict it
raises `TypeError`, modelled as `Except.error`.  The raise discards any
partially built set, so the left-to-right order of CPython's check is not
observable. -/
def pySetList (xs : List Json) : Except Unit (List Json) :=
  if xs.all jsonHashable then .ok xs.eraseDups else .error ()

/-- `check_schema_markup` (src/SEO.py:190-224).  `json_loads` is the
external JSON parser; `none` models a `json.JSONDecodeError` (caught and
skipped by the source, as is the `TypeError` from a script with no
string).  The final `list(set(schema_types))` (src/SEO.py:223) sits
outside the `try` block: when some collected `@type` value is an
unhashable array or object it raises an uncaught `TypeError`, so the
function aborts instead of returning — modelled by the `Except` result
via `pySetList`. -/
def check_schema_markup (json_loads : String → Option Json) (soup : Node) :
    Except Unit SchemaAnalysis :=
  let json_ld := findAllN is_json_ld_script soup
  let microdata := findAllN (has_attr "itemscope") soup
  let rdfa := findAllN (has_attr "typeof") soup
  let has_schema : Bool := 0 < json_ld.length ∨ 0 < microdata.length ∨ 0 < rdfa.length
  let schema_types := json_ld.flatMap (fun script =>
    match script_string script with
    | none => []
    | some s =>
        match json_loads s with
        | none => []
        | some data => ld_types_of data)
  match pySetList schema_types with
  | .ok types =>
      .ok { has_schema := has_schema
            json_ld_count := json_ld.length
            microdata_count := microdata.length
            rdfa_count := rdfa.length
            schema_types := types }
  | .error _ => .error ()

/-! ## PageSpeed enricher (src/SEO.py:226-263) and its report section -/

/-- Python truthiness of a JSON value. -/
def jsonTruthy : Json → Bool
  | .null => false
  | .bool b => b
  | .num q => q ≠ 0
  | .str s => s ≠ ""
  | .arr xs => !xs.isEmpty
  | .obj fs => !fs.isEmpty

/-- Python `int()` on a rational: truncation toward zero. -/
def pyInt (q : ℚ) : Int :=
  if q < 0 then -Int.floor (-q) else Int.floor q

/-- Result record of `get_pagespeed_insights` (src/SEO.py:252-256).
`fcp` and `fcp_numeric` hold whatever JSON values the response carried
(the source stores them without conversion). -/
structure PageSpeedData where
  performance_score : Int
  fcp : Json
  fcp_numeric : Json

/-- Python `d.get(key, default)` where `d` may be any JSON value: raises
(`AttributeError`, modelled as `Except.error`) when `d` is not an object. -/
def pyGetD (j : Json) (k : String) (d : Json) : Except Unit Json :=
  match j with
  | .obj fs => .ok ((json_field fs k).getD d)
  | _ => .error ()

/-- Python `d.get(key)` (default `None`): `none` when the key is absent. -/
def pyGet (j : Json) (k : String) : Except Unit (Option Json) :=
  match j with
  | .obj fs => .ok (json_field fs k)
  | _ => .error ()

/-- The field extraction of `get_pagespeed_insights` (src/SEO.py:243-256)
on the decoded response body.  Any exception along the way (attribute
access on a non-object, or a truthy but non-numeric score, on which
Python's `int(score * 100)` raises) becomes `Except.error`, which the
source's `except` clauses turn into `None`.  A truthy boolean score is
kept (`int(True * 100) = 100` in Python); Python would also accept a
numeric string here, which this model conservatively treats as an error
(no claim depends on it). -/
def ps_extract (data : Json) : Except Unit PageSpeedData := do
  let lighthouse_result ← pyGetD data "lighthouseResult" (.obj [])
  let categories ← pyGetD lighthouse_result "categories" (.obj [])
  let performance ← pyGetD categories "performance" (.obj [])
  let audits ← pyGetD lighthouse_result "audits" (.obj [])
  let fcp_audit ← pyGetD audits "first-contentful-paint" (.obj [])
  let scoreOpt ← pyGet performance "score"
  let performance_score ←
    match scoreOpt with
    | some v =>
        if jsonTruthy v then
          match v with
          | .num q => Except.ok (pyInt (q * 100))
          | .bool true => Except.ok (100 : Int)
          | _ => Except.error ()
        else Except.ok (0 : Int)
    | none => Except.ok (0 : Int)
  let fcp ← pyGetD fcp_audit "displayValue" (.str "N/A")
  let fcp_numeric ← pyGetD fcp_audit "numericValue" (.num 0)
  pure ⟨performance_score, fcp, fcp_numeric⟩

/-- `get_pagespeed_insights` (src/SEO.py:226-263).  `api_key` is the
held credential (`self.api_key`); `response` is the combined outcome of
`requests.get`, `raise_for_status()` and `response.json()` on the
performance endpoint (`Except.error` covers network errors, non-2xx
statuses and undecodable bodies, all caught by the source's `except`
clauses).  The second component of the result records whether the
outbound call was attempted at all: the source returns `None` before
any network code runs when no credential is held. -/
def get_pagespeed_insights (api_key : Option String) (response : Except Unit Json) :
    Option PageSpeedData × Bool :=
  match api_key with
  | none => (none, false)
  | some _ =>
      match response with
      | .error _ => (none, true)
      | .ok data =>
          match ps_extract data with
          | .ok r => (some r, true)
          | .error _ => (none, true)

/-- Python `str()` of a JSON value as used in the report f-strings.
Composite values are abbreviated (no claim inspects them). -/
def Json.pyStr : Json → String
  | .str s => s
  | .num q => toString q
  | .bool true => "True"
  | .bool false => "False"
  | .null => "None"
  | .arr _ => "\x7b...\x7d"
  | .obj _ => "\x7b...\x7d"

/-- The PageSpeed section of `display_results` (src/SEO.py:377-383): the
console lines printed for the performance data.  `results['pagespeed_data']`
is `None` or a non-empty dict, so Python truthiness coincides with the
`Option` match. -/
def display_pagespeed_lines (pagespeed_data : Option PageSpeedData) : List String :=
  match pagespeed_data with
  | some ps =>
      ["⚡ PageSpeed Performance:",
       "   Performance Score: " ++ toString ps.performance_score ++ "/100",
       "   First Contentful Paint: " ++ ps.fcp.pyStr]
  | none => ["⚡ PageSpeed Performance: Not available (API key not provided)"]

/-! ## PDF text wrapping (src/SEO.py:431-440 and 500-509) -/

/-- One iteration of the word-wrapping loop in `generate_pdf_report`
(src/SEO.py:433-438 with budget 65; identically src/SEO.py:502-507 with
budget 55): the state is the list of emitted lines and the current line
(which carries a trailing space after each accumulated word).  If the
tentative length `len(line + word)` is below the budget the word is
appended, otherwise the stripped current line is emitted and the word
starts a new line. -/
def wrapStep (budget : Nat) (st : List (List Char) × List Char) (w : List Char) :
    List (List Char) × List Char :=
  if st.2.length + w.length < budget then (st.1, st.2 ++ w ++ [' '])
  else (st.1 ++ [pyStrip st.2], w ++ [' '])

/-- The whole wrapping loop of `generate_pdf_report` on a word list
(src/SEO.py:432-440 / 501-509): fold `wrapStep` over the words starting
from no emitted lines and an empty current line, then flush the final
line if its stripped form is non-empty. -/
def wrapLines (budget : Nat) (ws : List (List Char)) : List (List Char) :=
  let st := ws.foldl (wrapStep budget) ([], [])
  if pyStrip st.2 ≠ [] then st.1 ++ [pyStrip st.2] else st.1

/-! ## Report filename (src/SEO.py:291-292 and 315) -/

/-- The authority (netloc) component of a URL as `urlparse` returns it
for the http/https URLs `run_audit` accepts: the text after the first
`//` up to the next `/`, `?` or `#` (empty when the URL has no `//`).
Modelled from the external `urllib.parse.urlparse`. -/
def netloc (url : String) : String :=
  ⟨netlocAux url.data⟩
where
  /-- Scan to the first `//` and take the run up to a delimiter. -/
  netlocAux : List Char → List Char
  | [] => []
  | '/' :: '/' :: rest => rest.takeWhile (fun c => !(c = '/' ∨ c = '?' ∨ c = '#'))
  | _ :: rest => netlocAux rest

/-- `domain = urlparse(url).netloc.replace('www.', '')` (src/SEO.py:292):
note that Python's `str.replace` removes every occurrence of `"www."`,
not only a leading prefix. -/
def run_audit_domain (url : String) : String :=
  ⟨pyReplace (netloc url).data "www.".data []⟩

/-- `pdf_filename = f"SEO_Audit_Report_{domain}.pdf"` (src/SEO.py:315). -/
def pdf_filename (url : String) : String :=
  "SEO_Audit_Report_" ++ run_audit_domain url ++ ".pdf"

/-! ## Helper notions for the wrapping proofs -/

/-- The current wrapping line built from a list of accumulated words:
each word followed by one space, exactly the shape `line` has in the
source's loop. -/
def joinSp (ws : List (List Char)) : List Char :=
  ws.flatMap (fun w => w ++ [' '])

/-- The words of one emitted line joined by single spaces (the stripped
form of a non-empty current line). -/
def intercalSp : List (List Char) → List Char
  | [] => []
  | [w] => w
  | w :: v :: ws => w ++ ' ' :: intercalSp (v :: ws)

/-- A word as produced by Python's `str.split()`: non-empty and free of
whitespace characters. -/
def goodWord (w : List Char) : Prop :=
  w ≠ [] ∧ ∀ c ∈ w, isPySpace c = false

instance (w : List Char) : Decidable (goodWord w) := by
  unfold goodWord; infer_instance

/-- Word-level restatement of the source's wrapping loop: group the
words into lines, starting a new line whenever the tentative line length
would reach the budget.  `wrapLines` is proved to emit exactly these
groups joined by single spaces. -/
def wrapWords (budget : Nat) : List (List Char) → List (List Char) → List (List (List Char))
  | cur, [] => if cur.isEmpty then [] else [cur]
  | cur, w :: ws =>
      if (joinSp cur).length + w.length < budget then wrapWords budget (cur ++ [w]) ws
      else cur :: wrapWords budget [w] ws

/-! ## Concrete documents used in the claim theorems -/

/-- Parse tree of `<p>Welcome to SEOAudit tools</p>` (keyword inside a
larger word, for the substring/case-insensitivity claims). -/
def docSeo : Node :=
  .elem "[document]" []
    [.elem "html" [] [.elem "body" [] [.elem "p" [] [.text "Welcome to SEOAudit tools"]]]]

/-- Parse tree of a document whose only occurrences of the keyword `seo`
sit inside `<script>` and `<style>` subtrees. -/
def docScript : Node :=
  .elem "[document]" []
    [.elem "html" []
      [.elem "head" [] [.elem "style" [] [.text "seo stylesheet"]],
       .elem "body" [] [.elem "script" [] [.text "var seo = 1; // seo"], .elem "p" [] [.text "hello"]]]]

/-- Parse tree of `<p>aaaa</p>` (overlapping-occurrence document for the
non-overlapping counting claim). -/
def docAaaa : Node :=
  .elem "[document]" [] [.elem "p" [] [.text "aaaa"]]

/-- Parse tree of a document with a single JSON-LD script block whose
body is not valid JSON. -/
def docLd : Node :=
  .elem "[document]" []
    [.elem "script" [("type", "application/ld+json")] [.text "not json at all"],
     .elem "p" [] [.text "x"]]

/-! # Theorems -/

/-! ## Facts about the string primitives -/

/-- Bridge from the propositional prefix order to the boolean test the
scanners use. -/
theorem isPrefixOf_eq_true {l₁ l₂ : List Char} (h : l₁ <+: l₂) :
    l₁.isPrefixOf l₂ = true := by
  exact List.isPrefixOf_iff_prefix.mpr h

/-- Bridge from a prefix refutation to the boolean test. -/
theorem isPrefixOf_eq_false {l₁ l₂ : List Char} (h : ¬ l₁ <+: l₂) :
    l₁.isPrefixOf l₂ = false := by
  cases hb : l₁.isPrefixOf l₂ with
  | false => rfl
  | true => exact absurd (List.isPrefixOf_iff_prefix.mp hb) h

/-- The fuel argument of `pyCountAux` is irrelevant once it covers the
length of the scanned list. -/
theorem pyCountAux_fuel (p : List Char) :
    ∀ (f₁ f₂ : Nat) (s : List Char), s.length ≤ f₁ → s.length ≤ f₂ →
      pyCountAux p f₁ s = pyCountAux p f₂ s := by
  intro f₁
  induction f₁ with
  | zero =>
      intro f₂ s h₁ _
      cases s with
      | nil => cases f₂ <;> rfl
      | cons c t => simp at h₁
  | succ f ih =>
      intro f₂ s h₁ h₂
      cases s with
      | nil => cases f₂ <;> rfl
      | cons c rest =>
          cases f₂ with
          | zero => simp at h₂
          | succ f₂ =>
              have hr : rest.length ≤ f := by simp at h₁; omega
              have hr₂ : rest.length ≤ f₂ := by simp at h₂; omega
              simp only [pyCountAux]
              by_cases hp : p.isPrefixOf (c :: rest) = true
              · simp only [hp, if_true]
                have hd : (List.drop (p.length - 1) rest).length ≤ f := by
                  rw [List.length_drop]; omega
                have hd₂ : (List.drop (p.length - 1) rest).length ≤ f₂ := by
                  rw [List.length_drop]; omega
                rw [ih f₂ _ hd hd₂]
              · simp only [hp, if_false]
                exact ih f₂ rest hr hr₂

/-- Scanning recurrence of Python's `count` when the pattern matches at
the head: one occurrence is counted and the scan resumes after the whole
pattern (non-overlapping). -/
theorem pyCount_append_self (c : Char) (p s : List Char) :
    pyCount ((c :: p) ++ s) (c :: p) = 1 + pyCount s (c :: p) := by
  have hne : (c :: p) ≠ [] := by simp
  have hpre : (c :: p).isPrefixOf (c :: (p ++ s)) = true :=
    isPrefixOf_eq_true ⟨s, by simp⟩
  simp only [pyCount, if_neg hne]
  show pyCountAux (c :: p) (c :: (p ++ s)).length (c :: (p ++ s)) =
    1 + pyCountAux (c :: p) s.length s
  have hlen : (c :: (p ++ s)).length = (p ++ s).length + 1 := by simp
  rw [hlen]
  simp only [pyCountAux, hpre, if_true]
  have hdrop : List.drop ((c :: p).length - 1) (p ++ s) = s := by
    simp only [List.length_cons, Nat.succ_sub_one]
    exact List.drop_left p s
  rw [hdrop]
  rw [pyCountAux_fuel (c :: p) (p ++ s).length s.length s (by simp) (Nat.le_refl _)]

/-- Scanning recurrence of Python's `count` when the pattern does not
match at the head: the scan advances one character. -/
theorem pyCount_cons_no_match (c : Char) (s p : List Char) (hp : p ≠ [])
    (h : ¬ p <+: (c :: s)) : pyCount (c :: s) p = pyCount s p := by
  simp only [pyCount, if_neg hp]
  show pyCountAux p (c :: s).length (c :: s) = pyCountAux p s.length s
  have hlen : (c :: s).length = s.length + 1 := by simp
  rw [hlen]
  simp only [pyCountAux, isPrefixOf_eq_false h, Bool.false_eq_true, if_false]

/-- `pyReplaceAux` leaves any list without an occurrence of the pattern
unchanged (for every fuel value). -/
theorem pyReplaceAux_no_occurrence (old new : List Char) :
    ∀ (f : Nat) (s : List Char), ¬ (old <:+: s) → pyReplaceAux old new f s = s := by
  intro f
  induction f with
  | zero => intro s _; cases s <;> rfl
  | succ f ih =>
      intro s h
      cases s with
      | nil => rfl
      | cons d rest =>
          have hp : ¬ old <+: (d :: rest) := fun hpre => h hpre.isInfix
          have hrest : ¬ old <:+: rest := fun hinf => h (List.infix_cons hinf)
          simp only [pyReplaceAux, isPrefixOf_eq_false hp, Bool.false_eq_true, if_false]
          rw [ih rest hrest]

/-- Python's `replace` leaves a string without an occurrence of the
(non-empty) pattern unchanged. -/
theorem pyReplace_no_occurrence (old new : List Char) (ho : old ≠ []) (s : List Char)
    (h : ¬ (old <:+: s)) : pyReplace s old new = s := by
  simp only [pyReplace, if_neg ho]
  exact pyReplaceAux_no_occurrence old new s.length s h

/-- Fuel irrelevance for `pyReplaceAux`. -/
theorem pyReplaceAux_fuel (old new : List Char) :
    ∀ (f₁ f₂ : Nat) (s : List Char), s.length ≤ f₁ → s.length ≤ f₂ →
      pyReplaceAux old new f₁ s = pyReplaceAux old new f₂ s := by
  intro f₁
  induction f₁ with
  | zero =>
      intro f₂ s h₁ _
      cases s with
      | nil => cases f₂ <;> rfl
      | cons c t => simp at h₁
  | succ f ih =>
      intro f₂ s h₁ h₂
      cases s with
      | nil => cases f₂ <;> rfl
      | cons c rest =>
          cases f₂ with
          | zero => simp at h₂
          | succ f₂ =>
              have hr : rest.length ≤ f := by simp at h₁; omega
              have hr₂ : rest.length ≤ f₂ := by simp at h₂; omega
              simp only [pyReplaceAux]
              by_cases hp : old.isPrefixOf (c :: rest) = true
              · simp only [hp, if_true]
                have hd : (List.drop (old.length - 1) rest).length ≤ f := by
                  rw [List.length_drop]; omega
                have hd₂ : (List.drop (old.length - 1) rest).length ≤ f₂ := by
                  rw [List.length_drop]; omega
                rw [ih f₂ _ hd hd₂]
              · simp only [hp, Bool.false_eq_true, if_false]
                rw [ih f₂ rest hr hr₂]

/-- Scanning recurrence of Python's `replace` when the pattern matches at
the head: the replacement is emitted and the scan resumes after the whole
pattern. -/
theorem pyReplace_append_self (c : Char) (o s new : List Char) :
    pyReplace ((c :: o) ++ s) (c :: o) new = new ++ pyReplace s (c :: o) new := by
  have hne : (c :: o) ≠ [] := by simp
  have hpre : (c :: o).isPrefixOf (c :: (o ++ s)) = true :=
    isPrefixOf_eq_true ⟨s, by simp⟩
  simp only [pyReplace, if_neg hne]
  show pyReplaceAux (c :: o) new (c :: (o ++ s)).length (c :: (o ++ s)) =
    new ++ pyReplaceAux (c :: o) new s.length s
  have hlen : (c :: (o ++ s)).length = (o ++ s).length + 1 := by simp
  rw [hlen]
  simp only [pyReplaceAux, hpre, if_true]
  have hdrop : List.drop ((c :: o).length - 1) (o ++ s) = s := by
    simp only [List.length_cons, Nat.succ_sub_one]
    exact List.drop_left o s
  rw [hdrop]
  rw [pyReplaceAux_fuel (c :: o) new (o ++ s).length s.length s (by simp) (Nat.le_refl _)]

/-- Removing every `"www."` occurrence from a host amounts to stripping a
single leading `"www."` when the remainder contains no occurrence, and
leaves a host without any occurrence unchanged. -/
theorem replace_www_strip (rest : List Char) (h : ¬ ("www.".data <:+: rest)) :
    pyReplace ("www.".data ++ rest) "www.".data [] = rest ∧
      pyReplace rest "www.".data [] = rest := by
  have hd : "www.".data = 'w' :: "ww.".data := rfl
  have hno : pyReplace rest "www.".data [] = rest :=
    pyReplace_no_occurrence "www.".data [] (by simp [hd]) rest h
  refine ⟨?_, hno⟩
  calc pyReplace ("www.".data ++ rest) "www.".data []
      = [] ++ pyReplace rest "www.".data [] := by rw [hd]; exact pyReplace_append_self _ _ _ _
    _ = rest := by rw [hno]; rfl

/-! ## Facts about the document model -/

mutual

/-- `find_all` with a tag-name predicate returns exactly as many nodes as
there are elements with that tag name in the subtree. -/
theorem length_findAllN (t : String) : ∀ n : Node, (findAllN (tag_is t) n).length = countTag t n
  | .text _ => rfl
  | .elem name attrs cs => by
      by_cases h : name = t
      · simp [findAllN, countTag, tag_is, h, length_findAllL t cs]
        omega
      · simp [findAllN, countTag, tag_is, h, length_findAllL t cs]

/-- `length_findAllN` over sibling lists. -/
theorem length_findAllL (t : String) : ∀ l : List Node, (findAllL (tag_is t) l).length = countTagL t l
  | [] => rfl
  | c :: cs => by simp [findAllL, countTagL, length_findAllN t c, length_findAllL t cs]

end

mutual

/-- Decomposing script/style subtrees is idempotent. -/
theorem removeSS_idem : ∀ n : Node, removeSS (removeSS n) = removeSS n
  | .text _ => rfl
  | .elem name attrs cs => by simp [removeSS, removeSSL_idem cs]

/-- `removeSS_idem` over sibling lists. -/
theorem removeSSL_idem : ∀ l : List Node, removeSSL (removeSSL l) = removeSSL l
  | [] => rfl
  | c :: rest => by
      by_cases h : isScriptOrStyle c = true
      · simp [removeSSL, h, removeSSL_idem rest]
      · have h2 : isScriptOrStyle (removeSS c) = false := by
          cases c with
          | text s => simp [removeSS, isScriptOrStyle]
          | elem n a cs => simpa [removeSS, isScriptOrStyle] using h
        simp [removeSSL, h, h2, removeSS_idem c, removeSSL_idem rest]

end

/-- Splitting a list by a boolean predicate partitions its length. -/
theorem length_filter_add_length_filter_not {α : Type} (l : List α) (p : α → Bool) :
    (l.filter p).length + (l.filter (fun x => !p x)).length = l.length := by
  induction l with
  | nil => rfl
  | cons x xs ih =>
      by_cases h : p x = true <;> simp [List.filter_cons, h] <;> omega

/-- Case analysis of the `analyze_h1_tags` status expression. -/
theorem h1_status_cases (n : Nat) :
    ((if n = 1 then "Good" else if 1 < n then h1WarningStatus else "Missing") = "Missing" ↔ n = 0) ∧
      ((if n = 1 then "Good" else if 1 < n then h1WarningStatus else "Missing") = "Good" ↔ n = 1) ∧
      ((if n = 1 then "Good" else if 1 < n then h1WarningStatus else "Missing") = h1WarningStatus ↔ 1 < n) := by
  match n with
  | 0 => decide
  | 1 => decide
  | k + 2 =>
      have h1 : ¬ (k + 2 = 1) := by omega
      have h2 : 1 < k + 2 := by omega
      rw [if_neg h1, if_pos h2]
      exact ⟨iff_of_false (by decide) (by omega),
             iff_of_false (by decide) (by omega),
             iff_of_true rfl h2⟩

/-! ## Claim theorems -/

/-- Claim C1: for every HTML string, parsed document and keyword, the
keyword-frequency record has all four fields ≥ 0 and
`body = max(0, total - title - headings)`; and if the HTML string or the
keyword is empty, the result is the all-zero record. -/
theorem keyword_frequency_invariants (html_content : String) (soup : Node) (keyword : String) :
    ((calculate_keyword_frequency html_content soup keyword).body : ℤ) =
        max 0 (((calculate_keyword_frequency html_content soup keyword).total : ℤ) -
          ((calculate_keyword_frequency html_content soup keyword).title : ℤ) -
          ((calculate_keyword_frequency html_content soup keyword).headings : ℤ)) ∧
      0 ≤ (calculate_keyword_frequency html_content soup keyword).total ∧
      0 ≤ (calculate_keyword_frequency html_content soup keyword).title ∧
      0 ≤ (calculate_keyword_frequency html_content soup keyword).headings ∧
      0 ≤ (calculate_keyword_frequency html_content soup keyword).body ∧
      ((html_content = "" ∨ keyword = "") →
        calculate_keyword_frequency html_content soup keyword = ⟨0, 0, 0, 0⟩) := by
  have hbody : (calculate_keyword_frequency html_content soup keyword).body =
      (calculate_keyword_frequency html_content soup keyword).total -
        (calculate_keyword_frequency html_content soup keyword).title -
        (calculate_keyword_frequency html_content soup keyword).headings := by
    by_cases hg : html_content = "" ∨ keyword = ""
    · unfold calculate_keyword_frequency; rw [if_pos hg]; rfl
    · unfold calculate_keyword_frequency; rw [if_neg hg]
  refine ⟨by omega, Nat.zero_le _, Nat.zero_le _, Nat.zero_le _, Nat.zero_le _, ?_⟩
  intro hg
  unfold calculate_keyword_frequency
  rw [if_pos hg]

/-- Witness for C1 at a concrete empty-input instance. -/
theorem keyword_frequency_invariants_witness :
    calculate_keyword_frequency "" (Node.text "w") "kw" = ⟨0, 0, 0, 0⟩ :=
  (keyword_frequency_invariants "" (Node.text "w") "kw").2.2.2.2.2 (Or.inl rfl)

/-- Claim C3: the H1 analyzer's `count` is the number of `<h1>` elements,
and `status` is `Missing` iff the count is 0, `Good` iff it is 1, and the
`Warning` message iff it is greater than 1. -/
theorem h1_status_classification (soup : Node) :
    (analyze_h1_tags soup).count = countTag "h1" soup ∧
      ((analyze_h1_tags soup).status = "Missing" ↔ (analyze_h1_tags soup).count = 0) ∧
      ((analyze_h1_tags soup).status = "Good" ↔ (analyze_h1_tags soup).count = 1) ∧
      ((analyze_h1_tags soup).status = h1WarningStatus ↔ 1 < (analyze_h1_tags soup).count) := by
  have hc : (analyze_h1_tags soup).count = (findAllN (tag_is "h1") soup).length := rfl
  have hs : (analyze_h1_tags soup).status =
      (if (findAllN (tag_is "h1") soup).length = 1 then "Good"
       else if 1 < (findAllN (tag_is "h1") soup).length then h1WarningStatus
       else "Missing") := rfl
  rw [hc, hs]
  exact ⟨length_findAllN "h1" soup,
         (h1_status_cases (findAllN (tag_is "h1") soup).length).1,
         (h1_status_cases (findAllN (tag_is "h1") soup).length).2.1,
         (h1_status_cases (findAllN (tag_is "h1") soup).length).2.2⟩

/-- Claim C4: the image analyzer satisfies
`with_alt + missing_alt = total_images`, all three fields are ≥ 0, and
`with_alt`/`missing_alt` count exactly the `<img>` elements whose alt
attribute (defaulting to the empty string when absent) is non-empty/empty
after trimming. -/
theorem image_alt_partition (soup : Node) (base_url : String) :
    (analyze_images soup base_url).with_alt + (analyze_images soup base_url).missing_alt =
        (analyze_images soup base_url).total_images ∧
      0 ≤ (analyze_images soup base_url).total_images ∧
      0 ≤ (analyze_images soup base_url).missing_alt ∧
      0 ≤ (analyze_images soup base_url).with_alt ∧
      (analyze_images soup base_url).total_images = countTag "img" soup ∧
      (analyze_images soup base_url).missing_alt =
        ((findAllN (tag_is "img") soup).filter img_missing_alt).length ∧
      (analyze_images soup base_url).with_alt =
        ((findAllN (tag_is "img") soup).filter (fun i => !img_missing_alt i)).length := by
  have htot : (analyze_images soup base_url).total_images = (findAllN (tag_is "img") soup).length := rfl
  have hmiss : (analyze_images soup base_url).missing_alt =
      ((findAllN (tag_is "img") soup).filter img_missing_alt).length := rfl
  have hwith : (analyze_images soup base_url).with_alt =
      (findAllN (tag_is "img") soup).length -
        ((findAllN (tag_is "img") soup).filter img_missing_alt).length := rfl
  have hpart := length_filter_add_length_filter_not (findAllN (tag_is "img") soup) img_missing_alt
  refine ⟨?_, Nat.zero_le _, Nat.zero_le _, Nat.zero_le _,
          htot.trans (length_findAllN "img" soup), hmiss, ?_⟩
  · rw [htot, hmiss, hwith]; omega
  · rw [hwith]; omega

/-- Claim C6: the meta-description extractor returns the trimmed `content`
attribute of the first `<meta name="description">` element when that
attribute is present and non-empty after trimming, and the sentinel
string when the element is absent or its `content` attribute is empty
(a present element with empty `content` behaves exactly like an absent
element). -/
theorem meta_description_extraction (soup : Node) :
    (findFirstN is_meta_description soup = none →
        extract_meta_description soup = "No meta description found") ∧
      (∀ m : Node, findFirstN is_meta_description soup = some m →
        (node_attr m "content" = none ∨ node_attr m "content" = some "") →
        extract_meta_description soup = "No meta description found") ∧
      (∀ (m : Node) (c : String), findFirstN is_meta_description soup = some m →
        node_attr m "content" = some c → pyStripS c ≠ "" →
        extract_meta_description soup = pyStripS c) := by
  refine ⟨?_, ?_, ?_⟩
  · intro h
    simp [extract_meta_description, h]
  · intro m hm hc
    rcases hc with hc | hc <;> simp [extract_meta_description, hm, hc]
  · intro m c hm hc hne
    have hcne : c ≠ "" := by
      intro hceq
      subst hceq
      exact hne (by decide)
    simp [extract_meta_description, hm, hc, hcne]

/-- Witness for C6: a concrete document whose first meta-description
element carries `content = "  hi  "`. -/
theorem meta_description_extraction_witness :
    extract_meta_description (Node.elem "[document]" []
        [Node.elem "meta" [("name", "description"), ("content", "  hi  ")] []]) =
      pyStripS "  hi  " :=
  (meta_description_extraction _).2.2
    (Node.elem "meta" [("name", "description"), ("content", "  hi  ")] [])
    "  hi  " rfl rfl (by decide)

/-- Claim C2: keyword counting is case-insensitive substring counting with
no tokenization or word boundaries (keyword `"SEO"`, in either case,
matches inside the word `"SEOAudit"`), and script/style subtree text never
contributes to any count: counting on any document coincides with counting
on the document with script/style subtrees removed, and a document whose
only keyword occurrences sit inside `<script>`/`<style>` blocks yields the
all-zero record. -/
theorem keyword_counting_case_insensitive_script_free :
    (∀ (html_content : String) (soup : Node) (keyword : String),
        calculate_keyword_frequency html_content soup keyword =
          calculate_keyword_frequency html_content (removeSS soup) keyword) ∧
      calculate_keyword_frequency "<p>Welcome to SEOAudit tools</p>" docSeo "SEO" = ⟨1, 0, 0, 1⟩ ∧
      calculate_keyword_frequency "<p>Welcome to SEOAudit tools</p>" docSeo "sEo" = ⟨1, 0, 0, 1⟩ ∧
      calculate_keyword_frequency "x" docScript "seo" = ⟨0, 0, 0, 0⟩ := by
  refine ⟨?_, by decide, by decide, by decide⟩
  intro h s k
  by_cases hg : h = "" ∨ k = ""
  · unfold calculate_keyword_frequency
    rw [if_pos hg, if_pos hg]
  · unfold calculate_keyword_frequency
    rw [if_neg hg, if_neg hg, removeSS_idem]

/-- Claim C5 (amended): a JSON-LD block whose body fails to parse does
not raise, contributes nothing to the schema types, and is still counted:
for every document, the extractor under a parser that fails on every
block returns normally with `schema_types = []` and `json_ld_count` equal
to the number of `<script type="application/ld+json">` elements; and for
every parser, whenever the extractor returns a record at all, its
`json_ld_count` equals that number.  (A successfully parsed block whose
`@type` value is itself an array or object makes the source's
`list(set(..))` raise an uncaught `TypeError`, so the extractor then
returns nothing — see the counterexample.) -/
theorem schema_markup_malformed_blocks :
    (∀ soup : Node, check_schema_markup (fun _ => none) soup =
        Except.ok
          { has_schema := (0 < (findAllN is_json_ld_script soup).length ∨
              0 < (findAllN (has_attr "itemscope") soup).length ∨
              0 < (findAllN (has_attr "typeof") soup).length : Bool)
            json_ld_count := (findAllN is_json_ld_script soup).length
            microdata_count := (findAllN (has_attr "itemscope") soup).length
            rdfa_count := (findAllN (has_attr "typeof") soup).length
            schema_types := [] }) ∧
      (∀ (p : String → Option Json) (soup : Node) (r : SchemaAnalysis),
        check_schema_markup p soup = Except.ok r →
        r.json_ld_count = (findAllN is_json_ld_script soup).length) ∧
      check_schema_markup (fun _ => none) docLd =
        Except.ok
          { has_schema := true, json_ld_count := 1, microdata_count := 0,
            rdfa_count := 0, schema_types := [] } := by
  have hnil : ∀ l : List Node,
      (l.flatMap (fun script =>
        match script_string script with
        | none => ([] : List Json)
        | some _ => [])) = [] := by
    intro l
    induction l with
    | nil => rfl
    | cons c cs ih => cases hs : script_string c <;> simp [hs, ih]
  refine ⟨?_, ?_, rfl⟩
  · intro soup
    have hrfl : check_schema_markup (fun _ => none) soup =
        (match pySetList ((findAllN is_json_ld_script soup).flatMap (fun script =>
            match script_string script with
            | none => ([] : List Json)
            | some _ => [])) with
         | .ok types =>
            Except.ok
              { has_schema := (0 < (findAllN is_json_ld_script soup).length ∨
                  0 < (findAllN (has_attr "itemscope") soup).length ∨
                  0 < (findAllN (has_attr "typeof") soup).length : Bool)
                json_ld_count := (findAllN is_json_ld_script soup).length
                microdata_count := (findAllN (has_attr "itemscope") soup).length
                rdfa_count := (findAllN (has_attr "typeof") soup).length
                schema_types := types }
         | .error _ => Except.error ()) := rfl
    rw [hrfl, hnil]
    rfl
  · intro p soup r hok
    simp only [check_schema_markup] at hok
    split at hok
    · cases hok
      rfl
    · exact absurd hok (by simp)

/-- Witness for C5's whenever-it-returns count conjunct at the concrete
all-malformed document. -/
theorem schema_markup_malformed_blocks_witness :
    ({ has_schema := true, json_ld_count := 1, microdata_count := 0, rdfa_count := 0,
        schema_types := [] } : SchemaAnalysis).json_ld_count =
      (findAllN is_json_ld_script docLd).length :=
  schema_markup_malformed_blocks.2.1 (fun _ => none) docLd _ rfl

/-- Claim C5 counterexample: a successfully parsed JSON-LD block whose
`@type` value is an array (such as `{"@type": ["Person"]}`, a legal
JSON-LD shape) makes `list(set(schema_types))` at src/SEO.py:223 —
outside the `try` block — raise an uncaught `TypeError`, so the analysis
aborts and no `json_ld_count` is delivered at all, refuting
"`jsonLdCount` equals the number of script elements regardless of parse
success". -/
theorem schema_markup_counterexample :
    check_schema_markup
        (fun _ => some (.obj [("@type", .arr [.str "Person"])])) docLd =
      Except.error () := rfl

/-- Claim C7 (amended): with no API credential the enricher returns
absent without attempting the outbound call (second component `false`),
and the report section then states that performance data is unavailable;
a failed call (network error, non-2xx status, undecodable body) yields
absent without aborting; but a successful JSON response lacking the
expected fields yields a present record with default values
(score 0, `"N/A"`, 0), not absent. -/
theorem pagespeed_enrichment_behaviour :
    (∀ response : Except Unit Json, get_pagespeed_insights none response = (none, false)) ∧
      display_pagespeed_lines none =
        ["⚡ PageSpeed Performance: Not available (API key not provided)"] ∧
      (∀ key : String, get_pagespeed_insights (some key) (.error ()) = (none, true)) ∧
      get_pagespeed_insights (some "key") (.ok (.obj [])) =
        (some ⟨0, .str "N/A", .num 0⟩, true) :=
  ⟨fun _ => rfl, rfl, fun _ => rfl, rfl⟩

/-- Claim C7 counterexample: a successful call whose JSON body has none of
the expected fields makes the enricher return a present default record,
refuting "missing fields yields absent". -/
theorem pagespeed_missing_fields_counterexample :
    get_pagespeed_insights (some "key") (.ok (.obj [])) =
        (some ⟨0, .str "N/A", .num 0⟩, true) ∧
      (get_pagespeed_insights (some "key") (.ok (.obj []))).1 ≠ none := by
  refine ⟨rfl, ?_⟩
  intro h
  exact Option.noConfusion h

/-- Claim C9 (amended): the PDF filename is `SEO_Audit_Report_<domain>.pdf`
where `<domain>` is the URL's netloc with every non-overlapping occurrence
of `"www."` removed; when the host is a leading `"www."` followed by a
remainder free of `"www."`, this coincides with stripping the leading
prefix, and a host without any occurrence is unchanged. -/
theorem pdf_filename_domain :
    (∀ url : String, pdf_filename url =
        "SEO_Audit_Report_" ++ String.mk (pyReplace (netloc url).data "www.".data []) ++ ".pdf") ∧
      (∀ rest : List Char, ¬ ("www.".data <:+: rest) →
        pyReplace ("www.".data ++ rest) "www.".data [] = rest ∧
          pyReplace rest "www.".data [] = rest) ∧
      pdf_filename "https://www.example.com/page" = "SEO_Audit_Report_example.com.pdf" :=
  ⟨fun _ => rfl, replace_www_strip, by decide⟩

/-- Witness for C9 at the host `www.example.com`. -/
theorem pdf_filename_domain_witness :
    pyReplace ("www.".data ++ "example.com".data) "www.".data [] = "example.com".data ∧
      pyReplace "example.com".data "www.".data [] = "example.com".data :=
  pdf_filename_domain.2.1 "example.com".data (by decide)

/-- Claim C9 counterexample: for a host containing `"www."` other than as
a leading prefix, the code removes that occurrence as well, so the
filename is not the host with only a leading `"www."` stripped. -/
theorem pdf_filename_counterexample :
    pdf_filename "https://shopwww.example.com/" = "SEO_Audit_Report_shopexample.com.pdf" ∧
      pdf_filename "https://shopwww.example.com/" ≠ "SEO_Audit_Report_shopwww.example.com.pdf" := by
  decide

/-- Claim C10: keyword occurrences are counted as non-overlapping matches
scanning left to right: a match at the head consumes the whole keyword, a
non-match advances one character, and keyword `"aa"` against text
`"aaaa"` contributes 2 (not 3) to the total. -/
theorem keyword_count_non_overlapping :
    (∀ (c : Char) (p s : List Char),
        pyCount ((c :: p) ++ s) (c :: p) = 1 + pyCount s (c :: p)) ∧
      (∀ (c : Char) (s p : List Char), p ≠ [] → ¬ p <+: (c :: s) →
        pyCount (c :: s) p = pyCount s p) ∧
      calculate_keyword_frequency "<p>aaaa</p>" docAaaa "aa" = ⟨2, 0, 0, 2⟩ :=
  ⟨pyCount_append_self, pyCount_cons_no_match, by decide⟩

/-- Witness for C10's head-mismatch recurrence at a concrete instance. -/
theorem keyword_count_non_overlapping_witness :
    pyCount ['a', 'b'] ['b'] = pyCount ['b'] ['b'] :=
  keyword_count_non_overlapping.2.1 'a' ['b'] ['b'] (by decide) (by decide)

/-! ## Facts about the PDF wrapping loop -/

/-- Appending a word to the current line keeps the word-plus-space shape. -/
theorem joinSp_append_one (ws : List (List Char)) (w : List Char) :
    joinSp (ws ++ [w]) = joinSp ws ++ (w ++ [' ']) := by
  simp [joinSp]

/-- A non-empty current line is its emitted form plus one trailing space. -/
theorem joinSp_eq_intercalSp : ∀ cur : List (List Char), cur ≠ [] →
    joinSp cur = intercalSp cur ++ [' ']
  | [], h => absurd rfl h
  | [w], _ => by simp [joinSp, intercalSp]
  | w :: v :: rest, _ => by
      have ih := joinSp_eq_intercalSp (v :: rest) (by simp)
      show (w ++ [' ']) ++ joinSp (v :: rest) = (w ++ ' ' :: intercalSp (v :: rest)) ++ [' ']
      rw [ih]
      simp

/-- A current line made of good words has no leading whitespace. -/
theorem dropWhile_joinSp : ∀ ws : List (List Char), (∀ w ∈ ws, goodWord w) →
    List.dropWhile isPySpace (joinSp ws) = joinSp ws := by
  intro ws hws
  cases ws with
  | nil => rfl
  | cons w rest =>
      obtain ⟨hne, hfree⟩ := hws w (by simp)
      cases w with
      | nil => exact absurd rfl hne
      | cons c w' =>
          have hc : isPySpace c = false := hfree c (by simp)
          show List.dropWhile isPySpace (c :: (w' ++ [' '] ++ joinSp rest)) = _
          rw [List.dropWhile_cons]
          simp [hc, joinSp]

/-- Emitting a snoc-shaped word group joins all but the last word with
trailing spaces. -/
theorem intercalSp_concat : ∀ (ws : List (List Char)) (w : List Char),
    intercalSp (ws ++ [w]) = joinSp ws ++ w
  | [], w => by simp [intercalSp, joinSp]
  | [u], w => by
      show intercalSp (u :: [w]) = joinSp [u] ++ w
      simp [intercalSp, joinSp]
  | u :: v :: ws, w => by
      have ih := intercalSp_concat (v :: ws) w
      show u ++ ' ' :: intercalSp ((v :: ws) ++ [w]) = joinSp (u :: v :: ws) ++ w
      rw [ih]
      simp [joinSp]

/-- Stripping the current line (good words, trailing space) yields exactly
the space-joined words: the `line.strip()` of the source's loop. -/
theorem pyStrip_joinSp : ∀ cur : List (List Char), (∀ w ∈ cur, goodWord w) →
    pyStrip (joinSp cur) = intercalSp cur := by
  intro cur hcur
  rcases List.eq_nil_or_concat cur with hnil | ⟨ws, w, hconcat⟩
  · subst hnil; rfl
  · rw [List.concat_eq_append] at hconcat
    subst hconcat
    obtain ⟨hwne, hwfree⟩ := hcur w (by simp)
    obtain ⟨c, t, hwrev⟩ : ∃ c t, w.reverse = c :: t := by
      cases hwv : w.reverse with
      | nil => exact absurd (List.reverse_eq_nil_iff.mp hwv) hwne
      | cons c t => exact ⟨c, t, rfl⟩
    have hcmem : c ∈ w := by
      have : c ∈ w.reverse := by rw [hwrev]; simp
      simpa using this
    have hcns : isPySpace c = false := hwfree c hcmem
    unfold pyStrip
    rw [dropWhile_joinSp _ hcur, joinSp_append_one]
    calc ((joinSp ws ++ (w ++ [' '])).reverse.dropWhile isPySpace).reverse
        = ((' ' :: (w.reverse ++ (joinSp ws).reverse)).dropWhile isPySpace).reverse := by
          simp
      _ = ((w.reverse ++ (joinSp ws).reverse).dropWhile isPySpace).reverse := by
          rw [List.dropWhile_cons]
          simp [isPySpace]
      _ = (w.reverse ++ (joinSp ws).reverse).reverse := by
          rw [hwrev, List.cons_append, List.dropWhile_cons]
          simp [hcns]
      _ = joinSp ws ++ w := by simp
      _ = intercalSp (ws ++ [w]) := (intercalSp_concat ws w).symm

/-- The fold of the source's wrapping loop emits exactly the word groups
of `wrapWords`, each joined by single spaces. -/
theorem wrapLines_eq_wrapWords (budget : Nat) :
    ∀ (ws acc cur : List (List Char)),
      (∀ w ∈ cur, goodWord w) → (∀ w ∈ ws, goodWord w) →
      (if pyStrip ((ws.foldl (wrapStep budget) (acc, joinSp cur)).2) ≠ []
       then (ws.foldl (wrapStep budget) (acc, joinSp cur)).1 ++
         [pyStrip ((ws.foldl (wrapStep budget) (acc, joinSp cur)).2)]
       else (ws.foldl (wrapStep budget) (acc, joinSp cur)).1) =
        acc ++ (wrapWords budget cur ws).map intercalSp := by
  intro ws
  induction ws with
  | nil =>
      intro acc cur hcur _
      simp only [List.foldl_nil]
      rw [pyStrip_joinSp cur hcur]
      rcases cur with _ | ⟨w, rest⟩
      · simp [wrapWords, intercalSp]
      · have hwne := (hcur w (by simp)).1
        have hne : intercalSp (w :: rest) ≠ [] := by
          cases rest with
          | nil => simpa [intercalSp] using hwne
          | cons v r => simp [intercalSp]
        rw [if_pos hne]
        simp [wrapWords]
  | cons w ws ih =>
      intro acc cur hcur hws
      have hw : goodWord w := hws w (by simp)
      have hws' : ∀ x ∈ ws, goodWord x := fun x hx => hws x (by simp [hx])
      simp only [List.foldl_cons]
      by_cases hcond : (joinSp cur).length + w.length < budget
      · have hstep : wrapStep budget (acc, joinSp cur) w = (acc, joinSp (cur ++ [w])) := by
          simp [wrapStep, hcond, joinSp_append_one]
        have hcur' : ∀ x ∈ cur ++ [w], goodWord x := by
          intro x hx
          rcases List.mem_append.mp hx with h | h
          · exact hcur x h
          · simp at h; subst h; exact hw
        rw [hstep, ih acc (cur ++ [w]) hcur' hws']
        rw [wrapWords, if_pos hcond]
      · have hstep : wrapStep budget (acc, joinSp cur) w =
            (acc ++ [intercalSp cur], joinSp [w]) := by
          have hjw : joinSp [w] = w ++ [' '] := by simp [joinSp]
          show (if (joinSp cur).length + w.length < budget
                then (acc, joinSp cur ++ w ++ [' '])
                else (acc ++ [pyStrip (joinSp cur)], w ++ [' '])) =
            (acc ++ [intercalSp cur], joinSp [w])
          rw [if_neg hcond, pyStrip_joinSp cur hcur, hjw]
        have hcur' : ∀ x ∈ [w], goodWord x := by
          intro x hx; simp at hx; subst hx; exact hw
        rw [hstep, ih (acc ++ [intercalSp cur]) [w] hcur' hws']
        rw [wrapWords, if_neg hcond]
        simp

/-- The word groups of `wrapWords` enumerate the input words in order. -/
theorem wrapWords_flatten (budget : Nat) :
    ∀ (ws cur : List (List Char)), (wrapWords budget cur ws).flatten = cur ++ ws := by
  intro ws
  induction ws with
  | nil => intro cur; cases cur <;> simp [wrapWords]
  | cons w ws ih =>
      intro cur
      by_cases hcond : (joinSp cur).length + w.length < budget
      · rw [wrapWords, if_pos hcond, ih (cur ++ [w])]
        simp
      · rw [wrapWords, if_neg hcond]
        simp [ih [w]]

/-- When every word is shorter than the budget, every emitted group joins
to a line strictly shorter than the budget. -/
theorem wrapWords_bound (budget : Nat) :
    ∀ (ws cur : List (List Char)), (∀ w ∈ ws, w.length < budget) →
      (joinSp cur).length ≤ budget →
      ∀ g ∈ wrapWords budget cur ws, (intercalSp g).length < budget := by
  intro ws
  induction ws with
  | nil =>
      intro cur _ hcur g hg
      cases cur with
      | nil => simp [wrapWords] at hg
      | cons w rest =>
          simp [wrapWords] at hg
          subst hg
          have hj := joinSp_eq_intercalSp (w :: rest) (by simp)
          have hlen : (joinSp (w :: rest)).length = (intercalSp (w :: rest)).length + 1 := by
            rw [hj]; simp
          omega
  | cons w ws ih =>
      intro cur hws hcur g hg
      have hwlen : w.length < budget := hws w (by simp)
      have hws' : ∀ x ∈ ws, x.length < budget := fun x hx => hws x (by simp [hx])
      by_cases hcond : (joinSp cur).length + w.length < budget
      · rw [wrapWords, if_pos hcond] at hg
        refine ih (cur ++ [w]) hws' ?_ g hg
        rw [joinSp_append_one]
        simp
        omega
      · rw [wrapWords, if_neg hcond] at hg
        rcases List.mem_cons.mp hg with hge | hgm
        · rw [hge]
          have hcne : cur ≠ [] := by
            intro hnil
            subst hnil
            simp [joinSp] at hcond
            omega
          have hj := joinSp_eq_intercalSp cur hcne
          have hlen : (joinSp cur).length = (intercalSp cur).length + 1 := by
            rw [hj]; simp
          omega
        · refine ih [w] hws' ?_ g hgm
          simp [joinSp]
          omega

/-- `splitGroups` of a single good word is that word alone. -/
theorem splitGroups_word : ∀ w : List Char, goodWord w → splitGroups w = [w]
  | [], h => absurd rfl h.1
  | [c], h => by
      have hc : isPySpace c = false := h.2 c (by simp)
      simp [splitGroups, hc]
  | c :: d :: w', h => by
      have hc : isPySpace c = false := h.2 c (by simp)
      have ih := splitGroups_word (d :: w') ⟨by simp, fun x hx => h.2 x (by simp [hx])⟩
      show splitGroups (c :: (d :: w')) = [c :: d :: w']
      rw [splitGroups, ih]
      simp [hc]

/-- `splitGroups` peels one good word off a space-joined text. -/
theorem splitGroups_word_space : ∀ (w s : List Char), goodWord w →
    splitGroups (w ++ ' ' :: s) = w :: splitGroups s
  | [], s, h => absurd rfl h.1
  | [c], s, h => by
      have hc : isPySpace c = false := h.2 c (by simp)
      have h2 : splitGroups (' ' :: s) = [] :: splitGroups s := by
        rw [splitGroups]; simp [isPySpace]
      show splitGroups (c :: (' ' :: s)) = [c] :: splitGroups s
      rw [splitGroups, h2]
      simp [hc]
  | c :: d :: w', s, h => by
      have hc : isPySpace c = false := h.2 c (by simp)
      have ih := splitGroups_word_space (d :: w') s ⟨by simp, fun x hx => h.2 x (by simp [hx])⟩
      show splitGroups (c :: ((d :: w') ++ ' ' :: s)) = (c :: d :: w') :: splitGroups s
      rw [splitGroups, ih]
      simp [hc]

/-- Splitting a line of space-joined good words recovers the words: the
formal content of "no word is ever split". -/
theorem pySplit_intercalSp : ∀ g : List (List Char), (∀ w ∈ g, goodWord w) →
    pySplit (intercalSp g) = g
  | [], _ => rfl
  | [w], h => by
      have hw := h w (by simp)
      have hie : w.isEmpty = false := by
        cases w with
        | nil => exact absurd rfl hw.1
        | cons a b => rfl
      show pySplit w = [w]
      unfold pySplit
      rw [splitGroups_word w hw]
      simp [hie]
  | w :: v :: g', h => by
      have hw := h w (by simp)
      have hie : w.isEmpty = false := by
        cases w with
        | nil => exact absurd rfl hw.1
        | cons a b => rfl
      have ih := pySplit_intercalSp (v :: g') (fun x hx => h x (by simp [hx]))
      show pySplit (w ++ ' ' :: intercalSp (v :: g')) = w :: v :: g'
      unfold pySplit at ih ⊢
      rw [splitGroups_word_space w _ hw, List.filter_cons, hie]
      simp only [Bool.not_false, if_true]
      rw [ih]

/-- Splitting each emitted line and concatenating recovers the grouped
words. -/
theorem flatMap_pySplit_intercalSp : ∀ G : List (List (List Char)),
    (∀ g ∈ G, ∀ w ∈ g, goodWord w) →
    ((G.map intercalSp).flatMap pySplit) = G.flatten := by
  intro G
  induction G with
  | nil => intro _; rfl
  | cons g G ih =>
      intro h
      simp only [List.map_cons, List.flatMap_cons, List.flatten_cons]
      rw [pySplit_intercalSp g (h g (by simp)), ih (fun x hx => h x (by simp [hx]))]

/-- Claim C8 (amended): when every whitespace-delimited word is non-empty,
whitespace-free and strictly shorter than the budget, the PDF wrapping
loop never splits a word (splitting the emitted lines back on whitespace
recovers exactly the input words, in order) and every emitted line is
strictly shorter than the budget; a single word whose length reaches the
budget is emitted unsplit on a line exceeding the budget (see the
counterexample). -/
theorem wrap_lines_correct (budget : Nat) (ws : List (List Char))
    (h : ∀ w ∈ ws, goodWord w ∧ w.length < budget) :
    (wrapLines budget ws).flatMap pySplit = ws ∧
      ∀ l ∈ wrapLines budget ws, l.length < budget := by
  have hgood : ∀ w ∈ ws, goodWord w := fun w hw => (h w hw).1
  have hlen : ∀ w ∈ ws, w.length < budget := fun w hw => (h w hw).2
  have hsim : wrapLines budget ws = (wrapWords budget [] ws).map intercalSp := by
    have hmain := wrapLines_eq_wrapWords budget ws [] [] (by intro x hx; simp at hx) hgood
    simpa [wrapLines, joinSp] using hmain
  constructor
  · rw [hsim]
    rw [flatMap_pySplit_intercalSp (wrapWords budget [] ws) ?_]
    · rw [wrapWords_flatten]
      rfl
    · intro g hgG w hw
      have hmem : w ∈ (wrapWords budget [] ws).flatten := List.mem_flatten.mpr ⟨g, hgG, hw⟩
      rw [wrapWords_flatten] at hmem
      exact hgood w (by simpa using hmem)
  · intro l hl
    rw [hsim] at hl
    obtain ⟨g, hgG, rfl⟩ := List.mem_map.mp hl
    exact wrapWords_bound budget ws [] hlen (by simp [joinSp]) g hgG

/-- Witness for C8 at a concrete two-word input under budget 65. -/
theorem wrap_lines_correct_witness :
    (wrapLines 65 [['h', 'i'], ['y', 'o', 'u']]).flatMap pySplit =
        [['h', 'i'], ['y', 'o', 'u']] ∧
      ∀ l ∈ wrapLines 65 [['h', 'i'], ['y', 'o', 'u']], l.length < 65 :=
  wrap_lines_correct 65 [['h', 'i'], ['y', 'o', 'u']] (by decide)

/-- Claim C8 counterexample: a title consisting of one 71-character word
(so over the 70-character gate that triggers wrapping) is emitted unsplit
as a wrapped line of length 71, exceeding the 65-character budget — and
an empty line is flushed before it. -/
theorem wrap_lines_counterexample :
    wrapLines 65 (pySplit (List.replicate 71 'a')) = [[], List.replicate 71 'a'] ∧
      65 < (List.replicate 71 'a').length := by
  constructor
  · decide
  · decide
